import Mathlib

/-!
Formal model of the response post-processing and dataset-routing pipeline of
the US-Census natural-language-to-SQL assistant.

The definitions below are a shallow embedding of the Python sources
src/src/data_handler.py and src/src/response_handler.py (with the duplicated
refine_response in src/main.py).  Strings are modelled as List Char over the
ASCII fragment; the constant regular expressions of the source are embedded
as the explicit string functions they denote on that fragment.  External
collaborators (the language model, the vector store, the Python exec
environment, pandas serialization) are modelled as explicitly passed total
functions or abstract outcome values.
-/

set_option linter.unusedVariables false

/-- Python's ASCII whitespace class (the characters matched by the regex
class and stripped by str.strip on ASCII input): space, tab, newline,
carriage return, vertical tab, form feed. -/
def isPySpace (c : Char) : Bool :=
  (c = ' ') || (c = '\t') || (c = '\n') || (c = '\r') || (c.toNat = 11) || (c.toNat = 12)

/-- ASCII word character, the regex word class: letters, digits, underscore. -/
def isWordChar (c : Char) : Bool :=
  (97 ≤ c.toNat && c.toNat ≤ 122) || (65 ≤ c.toNat && c.toNat ≤ 90) ||
    (48 ≤ c.toNat && c.toNat ≤ 57) || (c.toNat = 95)

/-- ASCII decimal digit. -/
def isDigitChar (c : Char) : Bool := 48 ≤ c.toNat && c.toNat ≤ 57

/-- Python str.strip(): remove leading and trailing whitespace. -/
def pyStrip (s : List Char) : List Char :=
  ((s.dropWhile isPySpace).reverse.dropWhile isPySpace).reverse

/-- isPre n h: the list n is an initial segment of h. -/
def isPre : List Char → List Char → Bool
  | [], _ => true
  | _ :: _, [] => false
  | a :: as, b :: bs => a == b && isPre as bs

/-- isSuf n h: the list n is a final segment of h. -/
def isSuf (n h : List Char) : Bool := isPre n.reverse h.reverse

/-- listContains h n: n occurs somewhere in h as a contiguous sublist.
This is Python's substring operator n in h. -/
def listContains : List Char → List Char → Bool
  | h, n =>
    if isPre n h then true
    else match h with
      | [] => false
      | _ :: t => listContains t n

/-- Index of the first occurrence of n in h, if any. -/
def findSub : List Char → List Char → Option Nat
  | h, n =>
    if isPre n h then some 0
    else match h with
      | [] => none
      | _ :: t => (findSub t n).map (· + 1)

/-- First substitution of refine_response: removing a leading lowercase
sql tag and the whitespace after it.  The pattern is anchored at the start
and is case sensitive, so at most one substitution happens and only for the
exact lowercase tag. -/
def subLeadingSqlTag (s : List Char) : List Char :=
  if isPre "sql".data s then (s.drop 3).dropWhile isPySpace else s

/-- Second substitution of refine_response, keeping the interior of a
whole-string sql code fence.  The pattern is anchored at both ends with the
dot matching newlines and the interior greedy; the end anchor also matches
just before a final newline, in which case that newline survives the
substitution. -/
def subSqlFence (s : List Char) : List Char :=
  if isPre "```sql".data s then
    let r := s.drop 6
    if isSuf "```".data r then r.take (r.length - 3)
    else if isSuf "```\n".data r then r.take (r.length - 4) ++ [ '\n' ]
    else s
  else s

/-- Third substitution of refine_response: a whole-string generic
triple-backtick fence, same anchoring as the sql fence. -/
def subFence (s : List Char) : List Char :=
  if isPre "```".data s then
    let r := s.drop 3
    if isSuf "```".data r then r.take (r.length - 3)
    else if isSuf "```\n".data r then r.take (r.length - 4) ++ [ '\n' ]
    else s
  else s

/-- Fourth substitution of refine_response: a whole-string single-backtick
pair, same anchoring. -/
def subTick (s : List Char) : List Char :=
  if isPre "`".data s then
    let r := s.drop 1
    if isSuf "`".data r then r.take (r.length - 1)
    else if isSuf "`\n".data r then r.take (r.length - 2) ++ [ '\n' ]
    else s
  else s

/-- The Response Sanitizer refine_response of src/src/data_handler.py (and
src/main.py): the four anchored substitutions in their fixed order, then a
final strip of surrounding whitespace. -/
def refine_response (s : List Char) : List Char :=
  pyStrip (subTick (subFence (subSqlFence (subLeadingSqlTag s))))

/-- One substitution step of the try block of refine_response, with an
explicit exception channel.  A substitution with a constant, valid pattern
applied to a string value returns normally in Python, so the step is a
normal return; the channel records that no exception is available to raise
here. -/
def subLeadingSqlTagE (s : List Char) : Except (List Char) (List Char) :=
  Except.ok (subLeadingSqlTag s)

/-- Exception-channel form of the sql-fence substitution step. -/
def subSqlFenceE (s : List Char) : Except (List Char) (List Char) :=
  Except.ok (subSqlFence s)

/-- Exception-channel form of the generic-fence substitution step. -/
def subFenceE (s : List Char) : Except (List Char) (List Char) :=
  Except.ok (subFence s)

/-- Exception-channel form of the single-backtick substitution step. -/
def subTickE (s : List Char) : Except (List Char) (List Char) :=
  Except.ok (subTick s)

/-- refine_response with the source's try/except structure made explicit:
the four substitution steps run inside the try; if a step raised, the bare
except would log and fall through holding the value the response variable
had before the failing step, and the final strip runs outside the try.  The
caller receives an exception only if the whole computation ends in the
error channel. -/
def refine_response_run (s : List Char) : Except (List Char) (List Char) :=
  let tryResult : List Char :=
    match subLeadingSqlTagE s with
    | .error _ => s
    | .ok r1 =>
      match subSqlFenceE r1 with
      | .error _ => r1
      | .ok r2 =>
        match subFenceE r2 with
        | .error _ => r2
        | .ok r3 =>
          match subTickE r3 with
          | .error _ => r3
          | .ok r4 => r4
  Except.ok (pyStrip tryResult)

/-- n is an initial segment of n ++ b. -/
theorem isPre_append_self (a b : List Char) : isPre a (a ++ b) = true := by
  induction a with
  | nil => rfl
  | cons c t ih => simp [isPre, ih]

/-- a is a final segment of b ++ a. -/
theorem isSuf_append_self (a b : List Char) : isSuf a (b ++ a) = true := by
  unfold isSuf
  rw [List.reverse_append]
  exact isPre_append_self a.reverse b.reverse

/-- If the first character differs, isPre fails. -/
theorem isPre_cons_ne {a b : Char} (as bs : List Char) (h : a ≠ b) :
    isPre (a :: as) (b :: bs) = false := by
  simp [isPre]
  intro hc
  exact absurd hc h

/-- C5: for every string input the Response Sanitizer refine_response
returns a value to the caller and never an exception; the substitution
steps of the try block cannot raise on a string, so the caught branch never
fires and the returned value is the sanitized text. -/
theorem refine_response_no_exception :
    ∀ s : List Char, refine_response_run s = Except.ok (refine_response s) :=
  fun _ => rfl

/-- C6 counterexample: an uppercase leading SQL tag is not removed by
refine_response, because the tag pattern is case sensitive; the claimed
case-insensitive removal would have produced the tagless text. -/
theorem refine_sql_tag_case_cex :
    refine_response ( "SQL SELECT 1" ).data = ( "SQL SELECT 1" ).data ∧
    refine_response ( "SQL SELECT 1" ).data ≠ ( "SELECT 1" ).data := by
  exact ⟨by decide, by decide⟩

/-- C6 amended: the Response Sanitizer removes a leading sql tag only when
it is written in lowercase; the lowercase tag and the whitespace after it
are consumed from the very start before the remaining substitutions run. -/
theorem refine_sql_tag_lowercase_only (t : List Char) :
    refine_response ( "sql".data ++ t) =
      pyStrip (subTick (subFence (subSqlFence (t.dropWhile isPySpace)))) := by
  have h : subLeadingSqlTag ( "sql".data ++ t) = t.dropWhile isPySpace := by
    unfold subLeadingSqlTag
    rw [if_pos (isPre_append_self "sql".data t)]
    rfl
  unfold refine_response
  rw [h]

/-- The sql-fence substitution on a whole-string fence recovers exactly the
interior: the greedy interior runs to the last closing fence, which here is
the appended one. -/
theorem subSqlFence_wrap (m : List Char) :
    subSqlFence (( "```sql".data ++ m) ++ "```".data) = m := by
  unfold subSqlFence
  rw [List.append_assoc]
  rw [if_pos (isPre_append_self "```sql".data (m ++ "```".data))]
  have hdrop : ( "```sql".data ++ (m ++ "```".data)).drop 6 = m ++ "```".data :=
    List.drop_left "```sql".data (m ++ "```".data)
  simp only [hdrop]
  rw [if_pos (isSuf_append_self "```".data m)]
  have hlen : (m ++ "```".data).length - 3 = m.length := by
    simp [List.length_append]
  rw [hlen]
  exact List.take_left m "```".data

/-- C7 counterexample: an input wrapped in a whole-string sql fence whose
interior is itself wrapped in single backticks; the sanitizer strips the
interior further, so the output is not the trimmed interior. -/
theorem refine_sqlfence_cex :
    refine_response ( "```sql`SELECT 1````" ).data = ( "SELECT 1" ).data ∧
    refine_response ( "```sql`SELECT 1````" ).data ≠ pyStrip ( "`SELECT 1`" ).data := by
  exact ⟨by decide, by decide⟩

/-- C7 amended: for every input that is a whole-string sql fence around an
interior that the later generic-fence and single-backtick substitutions
leave unchanged, the sanitizer output is the trimmed interior. -/
theorem refine_sqlfence_interior (m : List Char)
    (hF : subFence m = m) (hT : subTick m = m) :
    refine_response (( "```sql".data ++ m) ++ "```".data) = pyStrip m := by
  have htag : subLeadingSqlTag (( "```sql".data ++ m) ++ "```".data) =
      ( "```sql".data ++ m) ++ "```".data := by
    unfold subLeadingSqlTag
    rw [List.append_assoc]
    rw [show isPre "sql".data ( "```sql".data ++ (m ++ "```".data)) = false from rfl]
    simp
  unfold refine_response
  rw [htag, subSqlFence_wrap, hF, hT]

/-- C7 witness: a concrete fenced SQL statement with an undecorated
interior is reduced to the trimmed interior. -/
theorem refine_sqlfence_interior_witness :
    refine_response (( "```sql".data ++ ( " SELECT 7 " ).data) ++ "```".data) =
      pyStrip ( " SELECT 7 " ).data :=
  refine_sqlfence_interior ( " SELECT 7 " ).data (by decide) (by decide)

/-- C8: on an input that none of the four substitution patterns matches,
the sanitizer is the identity up to trimming of surrounding whitespace. -/
theorem refine_no_decoration_id (s : List Char)
    (h1 : subLeadingSqlTag s = s) (h2 : subSqlFence s = s)
    (h3 : subFence s = s) (h4 : subTick s = s) :
    refine_response s = pyStrip s := by
  unfold refine_response
  rw [h1, h2, h3, h4]

/-- C8 witness: a plain SQL string with no decoration passes through the
sanitizer unchanged apart from trimming. -/
theorem refine_no_decoration_witness :
    refine_response ( "  SELECT * FROM t " ).data = pyStrip ( "  SELECT * FROM t " ).data :=
  refine_no_decoration_id ( "  SELECT * FROM t " ).data
    (by decide) (by decide) (by decide) (by decide)

/-- A scalar cell of a ResultTable, as serialized by the records-oriented
JSON writer: a string, an integer (the numeric fragment of the model), a
boolean, or an explicit null. -/
inductive Cell
  | cStr (s : List Char)
  | cInt (n : Int)
  | cBool (b : Bool)
  | cNull
deriving DecidableEq

/-- A row of a ResultTable: the ordered column-name/value pairs that the
records-oriented JSON writer emits for it. -/
abbrev Row := List (List Char × Cell)

/-- A raw row as fetched from the warehouse, before cleaning: a missing
value (pandas NaN or None) is an absent cell. -/
abbrev RawRow := List (List Char × Option Cell)

/-- Elementwise comparison of a cell against 0, as pandas evaluates the
expression data neq 0: an integer compares numerically, a boolean False
equals 0 and True differs from it, strings and nulls never equal 0. -/
def cellNeZero : Cell → Bool
  | .cInt n => n != 0
  | .cStr _ => true
  | .cBool b => b
  | .cNull => true

/-- fillna(0): every missing value becomes the integer 0. -/
def fillRow (r : RawRow) : Row :=
  r.map (fun kc => (kc.1, kc.2.getD (Cell.cInt 0)))

/-- A row survives the cleaning filter iff some value differs from 0. -/
def rowNonZero (r : Row) : Bool := r.any (fun kc => cellNeZero kc.2)

/-- preprocess_data of src/src/data_handler.py: fill missing values with 0,
drop every row whose values are all 0, and reset the index (the model's
list positions are the reset positional index). -/
def preprocess_data (d : List RawRow) : List Row :=
  (d.map fillRow).filter rowNonZero

/-- Global replacement of non-greedy fenced blocks, the regex of the form
open-tag, minimal interior, close-tag applied with replace-all semantics:
the leftmost open tag is located, the nearest close tag after it ends the
match, the whole match is deleted, and scanning resumes after it.  If the
leftmost open tag has no close tag after it, no later occurrence can have
one either, so nothing matches.  The fuel argument bounds the number of
matches and is initialized beyond the string length. -/
def replaceFencedAux : Nat → List Char → List Char → List Char → List Char
  | 0, _, _, s => s
  | fuel + 1, openT, closeT, s =>
    match findSub s openT with
    | none => s
    | some i =>
      let rest := s.drop (i + openT.length)
      match findSub rest closeT with
      | none => s
      | some j => s.take i ++ replaceFencedAux fuel openT closeT (rest.drop (j + closeT.length))

/-- Entry point of the fenced-block replacement with sufficient fuel. -/
def replaceFenced (openT closeT s : List Char) : List Char :=
  replaceFencedAux (s.length + 1) openT closeT s

/-- True when the list is empty or starts with a non-word character: the
word-boundary condition after a match of a word-characters pattern. -/
def headNonWord : List Char → Bool
  | [] => true
  | c :: _ => !isWordChar c

/-- Global replacement of the file-reference regex: a word boundary, one or
more word characters, a literal dot, the fixed extension, then a word
boundary.  The scan keeps the one-character look-behind needed for the
boundary test; a match must begin at a boundary, the greedy word run must
be followed by the dot and extension, and the character after the
extension must not be a word character. -/
def replaceExtAux : Nat → List Char → Bool → List Char → List Char
  | 0, _, _, s => s
  | fuel + 1, ext, prevWord, s =>
    match s with
    | [] => []
    | c :: rest =>
      if !prevWord && isWordChar c then
        let after := s.dropWhile isWordChar
        if isPre ( '.' :: ext) after then
          let after2 := after.drop (ext.length + 1)
          if headNonWord after2 then replaceExtAux fuel ext true after2
          else c :: replaceExtAux fuel ext (isWordChar c) rest
        else c :: replaceExtAux fuel ext (isWordChar c) rest
      else c :: replaceExtAux fuel ext (isWordChar c) rest

/-- Entry point of the file-reference replacement: the start of the string
is a word boundary. -/
def replaceExt (ext s : List Char) : List Char :=
  replaceExtAux (s.length + 1) ext false s

/-- The literal label removed by the label regex. -/
def pyCodeLabel : List Char := ( "Python Code:" ).data

/-- Global replacement of the label regex: the literal label followed by
greedy whitespace, deleted wherever it occurs. -/
def replaceLabelAux : Nat → List Char → List Char
  | 0, s => s
  | fuel + 1, s =>
    match findSub s pyCodeLabel with
    | none => s
    | some i =>
      s.take i ++ replaceLabelAux fuel ((s.drop (i + pyCodeLabel.length)).dropWhile isPySpace)

/-- Entry point of the label replacement with sufficient fuel. -/
def replaceLabel (s : List Char) : List Char := replaceLabelAux (s.length + 1) s

/-- The search for the first fenced block: the leftmost open tag, the
nearest close tag after it, returning the interior. -/
def searchFenced (openT closeT s : List Char) : Option (List Char) :=
  match findSub s openT with
  | none => none
  | some i =>
    let rest := s.drop (i + openT.length)
    match findSub rest closeT with
    | none => none
    | some j => some (rest.take j)

/-- The opening tag of a python code fence. -/
def codeOpen : List Char := ( "```python" ).data

/-- A bare triple-backtick fence tag. -/
def fenceTag : List Char := ( "```" ).data

/-- The cleaning pass of process_llm_response run before code execution:
python fences, png references, the code label, html references, json
references, bare fences, each substitution followed by a strip. -/
def cleanPass1 (s : List Char) : List Char :=
  let r1 := pyStrip (replaceFenced codeOpen fenceTag s)
  let r2 := pyStrip (replaceExt ( "png" ).data r1)
  let r3 := pyStrip (replaceLabel r2)
  let r4 := pyStrip (replaceExt ( "html" ).data r3)
  let r5 := pyStrip (replaceExt ( "json" ).data r4)
  pyStrip (replaceFenced fenceTag fenceTag r5)

/-- The second cleaning pass of process_llm_response, run after successful
code execution; its substitutions are the same but the label comes last. -/
def cleanPass2 (s : List Char) : List Char :=
  let r1 := pyStrip (replaceFenced codeOpen fenceTag s)
  let r2 := pyStrip (replaceExt ( "png" ).data r1)
  let r3 := pyStrip (replaceExt ( "html" ).data r2)
  let r4 := pyStrip (replaceExt ( "json" ).data r3)
  let r5 := pyStrip (replaceFenced fenceTag fenceTag r4)
  pyStrip (replaceLabel r5)

/-- Outcome of executing extracted python code in the constrained
namespace: either a normal return, with the chart binding the namespace
holds afterwards if any, or an exception with its message. -/
inductive ExecOutcome (χ : Type)
  | ok (chart : Option χ)
  | exn (msg : List Char)

/-- The data object made available to the executed code: the preprocessed
frame on the large path, the serialized JSON text on the short path. -/
inductive DataArg
  | frame (rows : List Row)
  | jsonText (t : List Char)

/-- process_llm_response of src/src/data_handler.py: extract the first
python fenced block, clean the prose of code blocks, file references and
the code label, then, if a block was found, execute its stripped interior
in the constrained namespace; on success take the chart binding if present
and clean again, on an exception append the error line and return no
chart.  The executor is the abstract outcome of the external python exec
on the given code and data object. -/
def process_llm_response {χ : Type} (response_text : List Char) (data : DataArg)
    (ex : List Char → DataArg → ExecOutcome χ) : List Char × Option χ :=
  let code_match := searchFenced codeOpen fenceTag response_text
  let rt := cleanPass1 response_text
  match code_match with
  | none => (rt, none)
  | some code =>
    match ex (pyStrip code) data with
    | .ok chartOpt => (cleanPass2 rt, chartOpt)
    | .exn msg => (rt ++ ( "\nError generating visualization: " ).data ++ msg, none)

/-- C3: whenever the response text contains a python fenced block and the
execution of its stripped interior raises, process_llm_response catches the
exception and returns the cleaned prose with the error line appended and no
chart; the exception never reaches the caller, which receives this normal
return value. -/
theorem process_llm_response_exec_error {χ : Type}
    (text code msg : List Char) (d : DataArg) (ex : List Char → DataArg → ExecOutcome χ)
    (hcode : searchFenced codeOpen fenceTag text = some code)
    (hexn : ex (pyStrip code) d = ExecOutcome.exn msg) :
    process_llm_response text d ex =
      (cleanPass1 text ++ ( "\nError generating visualization: " ).data ++ msg, none) := by
  simp only [process_llm_response, hcode, hexn]

/-- C3 witness: a concrete summary whose code block raises with message
boom produces the cleaned prose plus the appended error line and no
chart. -/
theorem process_llm_response_exec_error_witness :
    process_llm_response ( "A summary.\n```python\nraise\n```" ).data
      (DataArg.jsonText []) (fun _ _ => ExecOutcome.exn (χ := Unit) ( "boom" ).data) =
      (cleanPass1 ( "A summary.\n```python\nraise\n```" ).data ++
        ( "\nError generating visualization: " ).data ++ ( "boom" ).data, none) :=
  process_llm_response_exec_error ( "A summary.\n```python\nraise\n```" ).data
    ( "\nraise\n" ).data ( "boom" ).data (DataArg.jsonText [])
    (fun _ _ => ExecOutcome.exn ( "boom" ).data) (by decide) rfl

/-- The ASCII character of a decimal digit. -/
def digitChar (d : Nat) : Char := Char.ofNat (48 + d)

/-- The decimal digit of an ASCII character. -/
def charDigit (c : Char) : Nat := c.toNat - 48

/-- One step of reading a decimal numeral left to right. -/
def digStep (a : Nat) (c : Char) : Nat := a * 10 + charDigit c

/-- The value of a decimal numeral. -/
def digitsToNat (l : List Char) : Nat := l.foldl digStep 0

/-- Decimal digits of a number, most significant first, accumulated on the
right; the fuel decreases with every digit and any fuel at least the number
itself is sufficient. -/
def natToCharsAux : Nat → Nat → List Char → List Char
  | 0, _, acc => acc
  | fuel + 1, n, acc =>
    if n = 0 then acc else natToCharsAux fuel (n / 10) (digitChar (n % 10) :: acc)

/-- The decimal numeral of a natural number. -/
def natToChars (n : Nat) : List Char := if n = 0 then [ '0' ] else natToCharsAux n n []

/-- JSON string escaping as the records writer performs it on the model's
character set: quote, backslash and the common control characters take a
backslash escape, everything else is emitted verbatim. -/
def escapeChar (c : Char) : List Char :=
  if c = '"' then [ '\\', '"' ]
  else if c = '\\' then [ '\\', '\\' ]
  else if c = '\n' then [ '\\', 'n' ]
  else if c = '\t' then [ '\\', 't' ]
  else if c = '\r' then [ '\\', 'r' ]
  else [c]

/-- The inverse mapping of a backslash escape. -/
def unescapeChar (e : Char) : Char :=
  if e = 'n' then '\n' else if e = 't' then '\t' else if e = 'r' then '\r' else e

/-- The escaped body of a JSON string. -/
def escBody : List Char → List Char
  | [] => []
  | c :: t => escapeChar c ++ escBody t

/-- A JSON string literal. -/
def encodeStr (s : List Char) : List Char := '"' :: (escBody s ++ [ '"' ])

/-- A JSON scalar as the records writer emits it. -/
def encodeCell : Cell → List Char
  | .cStr s => encodeStr s
  | .cInt (Int.ofNat n) => natToChars n
  | .cInt (Int.negSucc m) => '-' :: natToChars (m + 1)
  | .cBool true => ( "true" ).data
  | .cBool false => ( "false" ).data
  | .cNull => ( "null" ).data

/-- The key/value pairs of a record object after its opening brace, comma
separated and ending at the closing brace. -/
def encodeRowAux : Row → List Char
  | [] => [ '}' ]
  | (k, c) :: rest =>
    encodeStr k ++ ':' ::
      (encodeCell c ++ (match rest with | [] => [ '}' ] | _ :: _ => ',' :: encodeRowAux rest))

/-- A record object of the records-oriented JSON document. -/
def encodeRow (r : Row) : List Char := '{' :: encodeRowAux r

/-- The records of the array after its opening bracket, comma separated and
ending at the closing bracket. -/
def tableBody : List Row → List Char
  | [] => [ ']' ]
  | r :: tl => encodeRow r ++ (match tl with | [] => [ ']' ] | _ :: _ => ',' :: tableBody tl)

/-- The records-oriented JSON document of a table, the text that the
to_json call with records orientation writes (the model elides the
inter-token indentation whitespace, which carries no content). -/
def encodeTable : List Row → List Char
  | [] => [ '[', ']' ]
  | r :: tl => '[' :: tableBody (r :: tl)

/-- save_json of src/src/data_handler.py returns the filename it wrote. -/
def save_json (data : List Row) (filename : List Char) : List Char := filename

/-- The content save_json writes into the file: the records-oriented JSON
document of the table. -/
def save_json_content (data : List Row) : List Char := encodeTable data

/-- get_head of src/src/data_handler.py: the records-oriented JSON text of
the first rows of the table. -/
def get_head (data : List Row) (rows : Nat) : List Char := encodeTable (data.take rows)

/-- The structured content of a prompt sent to the language model: the
model keeps the values interpolated into the prompt template and elides the
fixed template text, and the language model is an abstract function of this
content. -/
inductive Prompt
  | shortP (data_json : List Char) (user_input : List Char)
  | largeP (json_filename : List Char) (data_preview : List Char) (user_input : List Char)
  | initialP (context : List Char) (user_input : List Char)
  | fallbackP (user_input : List Char) (context : List Char)

/-- short_data of src/src/data_handler.py: preprocess, serialize the whole
table inline, ask the language model, return its stripped reply and the
serialized data. -/
def short_data (data : List RawRow) (user_input : List Char)
    (llm : Prompt → List Char) : List Char × List Char :=
  let preprocessed := preprocess_data data
  let data_json := encodeTable preprocessed
  (pyStrip (llm (Prompt.shortP data_json user_input)), data_json)

/-- large_data of src/src/data_handler.py: preprocess, save the whole table
to the JSON file, build the preview of the first rows, ask the language
model with the filename and the preview, return its stripped reply and the
preprocessed table. -/
def large_data (data : List RawRow) (user_input : List Char)
    (llm : Prompt → List Char) (filename : List Char) (rows : Nat) :
    List Char × List Row :=
  let preprocessed := preprocess_data data
  let json_filename := save_json preprocessed filename
  let data_preview := get_head preprocessed rows
  (pyStrip (llm (Prompt.largeP json_filename data_preview user_input)), preprocessed)

/-- The two routing paths of the Dataset Router. -/
inductive Route
  | shortR
  | largeR
deriving DecidableEq

/-- The value data_handle returns to its caller: a pair on the large path,
a triple on the short path. -/
inductive DHResult (χ : Type)
  | largeTuple (response_text : List Char) (chart : Option χ)
  | shortTuple (data_rows : Nat) (response_text : List Char) (chart : Option χ)

/-- data_handle of src/src/data_handler.py: route on the raw row count
against the fixed threshold 100; on the large path call large_data (with
the hardcoded filename and preview size of the call site), process the
reply against the preprocessed frame and return the pair of cleaned text
and chart; on the short path call short_data, process the reply against the
serialized data and return the triple of raw row count, cleaned text and
chart.  The two conditions of the if/elif are exhaustive; the residual
implicit-None return of the Python function is the none value. -/
def data_handle {χ : Type} (data : List RawRow) (user_input : List Char)
    (llm : Prompt → List Char) (ex : List Char → DataArg → ExecOutcome χ)
    (filename : List Char) (rows : Nat) : Option (DHResult χ) :=
  let data_rows := data.length
  if data_rows > 100 then
    let lr := large_data data user_input llm ( "data.json" ).data 10
    let pr := process_llm_response lr.1 (DataArg.frame lr.2) ex
    some (DHResult.largeTuple pr.1 pr.2)
  else if data_rows ≤ 100 then
    let sr := short_data data user_input llm
    let pr := process_llm_response sr.1 (DataArg.jsonText sr.2) ex
    some (DHResult.shortTuple data_rows pr.1 pr.2)
  else none

/-- The routing path a data_handle result came from. -/
def routeOf {χ : Type} : DHResult χ → Route
  | .largeTuple _ _ => .largeR
  | .shortTuple _ _ _ => .shortR

/-- The number of components the caller must unpack from a data_handle
result. -/
def tupleArity {χ : Type} : DHResult χ → Nat
  | .largeTuple _ _ => 2
  | .shortTuple _ _ _ => 3

/-- The row count a short-path data_handle result reports. -/
def resRows {χ : Type} : DHResult χ → Option Nat
  | .shortTuple n _ _ => some n
  | .largeTuple _ _ => none

/-- A one-column raw row used in the concrete instances. -/
def exRawRow : RawRow := [ (( "a" ).data, some (Cell.cInt 1)) ]

/-- A raw row whose only value is missing; the fill turns it all-zero. -/
def exZeroRow : RawRow := [ (( "a" ).data, none) ]

/-- A trivial language model used in the concrete instances. -/
def llm0 : Prompt → List Char := fun _ => ( "ok" ).data

/-- A trivial executor used in the concrete instances. -/
def ex0 : List Char → DataArg → ExecOutcome Unit := fun _ _ => ExecOutcome.ok none

/-- C1: data_handle always returns a result whose routing path is a pure
function of the raw row count against the fixed threshold 100: at most 100
rows take the short path through short_data, strictly more than 100 rows
take the large path through large_data; in particular a table of exactly
100 rows takes the short path. -/
theorem data_handle_routes_by_rowcount :
    (∀ (χ : Type) (data : List RawRow) (u : List Char) (llm : Prompt → List Char)
       (ex : List Char → DataArg → ExecOutcome χ) (fn : List Char) (rows : Nat),
       (data_handle data u llm ex fn rows).map routeOf =
         some (if data.length ≤ 100 then Route.shortR else Route.largeR)) ∧
    (data_handle (List.replicate 100 exRawRow) ( "q" ).data llm0 ex0
        ( "data.json" ).data 10).map routeOf = some Route.shortR := by
  have h1 : ∀ (χ : Type) (data : List RawRow) (u : List Char) (llm : Prompt → List Char)
      (ex : List Char → DataArg → ExecOutcome χ) (fn : List Char) (rows : Nat),
      (data_handle data u llm ex fn rows).map routeOf =
        some (if data.length ≤ 100 then Route.shortR else Route.largeR) := by
    intro χ data u llm ex fn rows
    by_cases h : data.length > 100
    · have h' : ¬ data.length ≤ 100 := by omega
      simp [data_handle, h, h', routeOf]
    · have h' : data.length ≤ 100 := by omega
      simp [data_handle, h, h', routeOf]
  refine ⟨h1, ?_⟩
  have h2 := h1 Unit (List.replicate 100 exRawRow) ( "q" ).data llm0 ex0
    ( "data.json" ).data 10
  simpa using h2

/-- C4: the shape of the value data_handle returns differs between the two
routing paths: the large path yields a pair while the short path yields a
triple, against the documented uniform triple of row count, cleaned text
and chart; a caller unpacking two values fails on exactly the short path.
The concrete instances evaluate both paths. -/
theorem data_handle_tuple_shape_mismatch :
    (∀ (χ : Type) (data : List RawRow) (u : List Char) (llm : Prompt → List Char)
       (ex : List Char → DataArg → ExecOutcome χ) (fn : List Char) (rows : Nat),
       (data_handle data u llm ex fn rows).map tupleArity =
         some (if data.length ≤ 100 then 3 else 2)) ∧
    (data_handle (List.replicate 101 exRawRow) ( "q" ).data llm0 ex0
        ( "data.json" ).data 10).map tupleArity = some 2 ∧
    (data_handle [ exRawRow ] ( "q" ).data llm0 ex0
        ( "data.json" ).data 10).map tupleArity = some 3 := by
  have h1 : ∀ (χ : Type) (data : List RawRow) (u : List Char) (llm : Prompt → List Char)
      (ex : List Char → DataArg → ExecOutcome χ) (fn : List Char) (rows : Nat),
      (data_handle data u llm ex fn rows).map tupleArity =
        some (if data.length ≤ 100 then 3 else 2) := by
    intro χ data u llm ex fn rows
    by_cases h : data.length > 100
    · have h' : ¬ data.length ≤ 100 := by omega
      simp [data_handle, h, h', tupleArity]
    · have h' : data.length ≤ 100 := by omega
      simp [data_handle, h, h', tupleArity]
  refine ⟨h1, ?_, ?_⟩
  · have h2 := h1 Unit (List.replicate 101 exRawRow) ( "q" ).data llm0 ex0
      ( "data.json" ).data 10
    simpa using h2
  · have h3 := h1 Unit [ exRawRow ] ( "q" ).data llm0 ex0 ( "data.json" ).data 10
    simpa using h3

/-- C10: the cleaning step deletes every all-zero row, so no all-zero row
survives into the summarization input; a row whose missing value the fill
turned to 0 is deleted as well, and on the concrete two-row table the
cleaned row count 1 is strictly below the raw row count 2 that data_handle
reports as the routing row count on the short path. -/
theorem preprocess_data_drops_zero_rows :
    (∀ d : List RawRow, (preprocess_data d).all rowNonZero = true) ∧
    preprocess_data [ exRawRow, exZeroRow ] = [ fillRow exRawRow ] ∧
    ([ exRawRow, exZeroRow ] : List RawRow).length = 2 ∧
    (preprocess_data [ exRawRow, exZeroRow ]).length <
      ([ exRawRow, exZeroRow ] : List RawRow).length ∧
    (data_handle [ exRawRow, exZeroRow ] ( "q" ).data llm0 ex0
        ( "data.json" ).data 10).bind resRows = some 2 := by
  refine ⟨?_, by decide, by decide, by decide, by decide⟩
  intro d
  rw [List.all_eq_true]
  intro r hr
  exact (List.mem_filter.mp hr).2

/-- The fixed fallback sentinel of the Query Translator. -/
def sentinel : List Char :=
  ( "I cannot generate a SQL query for this request based on the provided schema." ).data

/-- Python newline join of the retrieved schema snippets. -/
def joinNL : List (List Char) → List Char
  | [] => []
  | [x] => x
  | x :: xs => x ++ '\n' :: joinNL xs

/-- The concatenated schema context built from the vector store results,
as generate_initial_response and the fallback branch both build it. -/
def contextOf (vs : List Char → Nat → List (List Char)) (u : List Char) (k : Nat) :
    List Char :=
  joinNL (vs u k)

/-- generate_initial_response of src/src/response_handler.py: retrieve the
schema context, ask the language model with the system prompt content and
the user text, return the stripped reply.  The vector store and the
language model are abstract collaborators; their calls return normally in
the model, so the caught remote-failure branch is not taken. -/
def generate_initial_response (u : List Char) (llm : Prompt → List Char)
    (vs : List Char → Nat → List (List Char)) (k : Nat) : List Char :=
  pyStrip (llm (Prompt.initialP (contextOf vs u k) u))

/-- trigger_fallback_logic of src/src/response_handler.py: ask the language
model with the repair prompt content built from the user text and the
schema context, return the stripped reply; the human message carries the
user text and is folded into it. -/
def trigger_fallback_logic (u : List Char) (llm : Prompt → List Char)
    (context : List Char) : List Char :=
  pyStrip (llm (Prompt.fallbackP u context))

/-- The external calls the pipeline stages can make; the trace of a stage
records them in order. -/
inductive ExtCall
  | vectorSearch
  | llmInvoke
  | warehouseQuery
  | sanitizerRun
deriving DecidableEq

/-- The outcome of get_response: either the fallback repair text, terminal
for the request, or the translator response forwarded to the SQL execution
path. -/
inductive GRResult
  | fallbackRepair (text : List Char)
  | sqlExecution (text : List Char)
deriving DecidableEq

/-- get_response of src/src/response_handler.py, instrumented with the
trace of external calls it makes: generate the initial response (one vector
search and one language model call), test the fallback sentinel by
substring containment, and either retrieve the context again and return the
fallback repair text (one more vector search and language model call) or
return the response for the SQL execution path. -/
def get_response_tr (u : List Char) (llm : Prompt → List Char)
    (vs : List Char → Nat → List (List Char)) (k : Nat) : GRResult × List ExtCall :=
  let response := generate_initial_response u llm vs k
  if listContains response sentinel then
    (GRResult.fallbackRepair (trigger_fallback_logic u llm (contextOf vs u k)),
     [ ExtCall.vectorSearch, ExtCall.llmInvoke, ExtCall.vectorSearch, ExtCall.llmInvoke ])
  else
    (GRResult.sqlExecution response, [ ExtCall.vectorSearch, ExtCall.llmInvoke ])

/-- The value get_response returns to its caller. -/
def get_response (u : List Char) (llm : Prompt → List Char)
    (vs : List Char → Nat → List (List Char)) (k : Nat) : GRResult :=
  (get_response_tr u llm vs k).1

/-- C2: get_response takes the fallback repair path exactly when the fixed
sentinel occurs anywhere in the translator response as a substring, and it
then returns the fallback text directly; otherwise it returns the
translator response for the SQL execution path; the two outcomes are
distinct constructors, and the trace of get_response contains no warehouse
call and no sanitizer run on either branch. -/
theorem get_response_fallback_sentinel (u : List Char) (llm : Prompt → List Char)
    (vs : List Char → Nat → List (List Char)) (k : Nat) :
    (listContains (generate_initial_response u llm vs k) sentinel = true →
       get_response_tr u llm vs k =
         (GRResult.fallbackRepair (trigger_fallback_logic u llm (contextOf vs u k)),
          [ ExtCall.vectorSearch, ExtCall.llmInvoke, ExtCall.vectorSearch,
            ExtCall.llmInvoke ])) ∧
    (listContains (generate_initial_response u llm vs k) sentinel = false →
       get_response_tr u llm vs k =
         (GRResult.sqlExecution (generate_initial_response u llm vs k),
          [ ExtCall.vectorSearch, ExtCall.llmInvoke ])) ∧
    ExtCall.warehouseQuery ∉ (get_response_tr u llm vs k).2 ∧
    ExtCall.sanitizerRun ∉ (get_response_tr u llm vs k).2 := by
  refine ⟨fun h => by simp [get_response_tr, h], fun h => by simp [get_response_tr, h],
    ?_, ?_⟩ <;>
  · cases hb : listContains (generate_initial_response u llm vs k) sentinel <;>
      simp [get_response_tr, hb]

/-- A vector store with no results, used in the concrete instance. -/
def vs0 : List Char → Nat → List (List Char) := fun _ _ => []

/-- A language model whose translator reply strictly contains the sentinel
inside longer text, used in the concrete instance. -/
def llmSent : Prompt → List Char := fun p =>
  match p with
  | Prompt.initialP _ _ => ( "x " ).data ++ sentinel ++ ( " y" ).data
  | _ => ( "advice" ).data

/-- C2 witness: a translator response that strictly contains the sentinel
inside longer text fires the fallback repair path with its trace of two
vector searches and two language model calls. -/
theorem get_response_fallback_sentinel_witness :
    get_response_tr ( "hi" ).data llmSent vs0 5 =
      (GRResult.fallbackRepair (trigger_fallback_logic ( "hi" ).data llmSent
        (contextOf vs0 ( "hi" ).data 5)),
       [ ExtCall.vectorSearch, ExtCall.llmInvoke, ExtCall.vectorSearch,
         ExtCall.llmInvoke ]) :=
  (get_response_fallback_sentinel ( "hi" ).data llmSent vs0 5).1 (by decide)

/-- Reader of a JSON string body after the opening quote: a backslash
consumes the next character through the escape mapping, a quote ends the
string, anything else is taken verbatim.  The flag records a pending
backslash. -/
def parseStrAux : Bool → List Char → Option (List Char × List Char)
  | _, [] => none
  | true, e :: rest => (parseStrAux false rest).map (fun p => (unescapeChar e :: p.1, p.2))
  | false, c :: rest =>
    if c = '"' then some ([], rest)
    else if c = '\\' then parseStrAux true rest
    else (parseStrAux false rest).map (fun p => (c :: p.1, p.2))

/-- Reader of a JSON string body with no pending escape. -/
def parseStrBody (s : List Char) : Option (List Char × List Char) := parseStrAux false s

/-- Reader of a decimal numeral: the greedy run of digits and its value. -/
def parseNatChars (s : List Char) : Option (Nat × List Char) :=
  match s.takeWhile isDigitChar with
  | [] => none
  | ds => some (digitsToNat ds, s.dropWhile isDigitChar)

/-- Reader of a JSON scalar: a string, one of the three literals, or a
possibly negative integer. -/
def parseCell (s : List Char) : Option (Cell × List Char) :=
  match s with
  | [] => none
  | c :: rest =>
    if c = '"' then (parseStrBody rest).map (fun p => (Cell.cStr p.1, p.2))
    else if c = 't' then
      if isPre ( "rue" ).data rest then some (Cell.cBool true, rest.drop 3) else none
    else if c = 'f' then
      if isPre ( "alse" ).data rest then some (Cell.cBool false, rest.drop 4) else none
    else if c = 'n' then
      if isPre ( "ull" ).data rest then some (Cell.cNull, rest.drop 3) else none
    else if c = '-' then
      (parseNatChars rest).map (fun p => (Cell.cInt (-(p.1 : Int)), p.2))
    else (parseNatChars s).map (fun p => (Cell.cInt (p.1 : Int), p.2))

/-- Reader of the key/value pairs of a record object, positioned after the
opening brace of an object known to have at least one pair; the fuel
decreases with every pair. -/
def parseRowLoop : Nat → List Char → Option (Row × List Char)
  | 0, _ => none
  | fuel + 1, s =>
    match s with
    | '"' :: rest =>
      (parseStrBody rest).bind (fun ks =>
        match ks.2 with
        | ':' :: s2 =>
          (parseCell s2).bind (fun cs =>
            match cs.2 with
            | ',' :: s4 => (parseRowLoop fuel s4).map (fun p => ((ks.1, cs.1) :: p.1, p.2))
            | '}' :: s4 => some ([(ks.1, cs.1)], s4)
            | _ => none)
        | _ => none)
    | _ => none

/-- Reader of one record object. -/
def parseRow (fuel : Nat) (s : List Char) : Option (Row × List Char) :=
  match s with
  | '{' :: '}' :: rest => some ([], rest)
  | '{' :: rest => parseRowLoop fuel rest
  | _ => none

/-- Reader of the records of a non-empty array, positioned after the
opening bracket; the fuel decreases with every record. -/
def parseTableLoop : Nat → List Char → Option (List Row × List Char)
  | 0, _ => none
  | fuel + 1, s =>
    (parseRow fuel s).bind (fun ts =>
      match ts.2 with
      | ',' :: s2 => (parseTableLoop fuel s2).map (fun p => (ts.1 :: p.1, p.2))
      | ']' :: s2 => some ([ts.1], s2)
      | _ => none)

/-- Reader of a whole records-oriented JSON document. -/
def parseTable (s : List Char) : Option (List Row) :=
  match s with
  | '[' :: ']' :: rest => if rest.isEmpty then some [] else none
  | '[' :: rest =>
    match parseTableLoop (s.length + 1) rest with
    | some (t, []) => some t
    | _ => none
  | _ => none

/-- The head of the list fails the predicate, or the list is empty. -/
def headNot (p : Char → Bool) : List Char → Prop
  | [] => True
  | c :: _ => p c = false

/-- Reading back the character of a digit. -/
theorem charDigit_digitChar (d : Nat) (h : d < 10) : charDigit (digitChar d) = d := by
  interval_cases d <;> decide

/-- The character of a digit is a digit character. -/
theorem isDigit_digitChar (d : Nat) (h : d < 10) : isDigitChar (digitChar d) = true := by
  interval_cases d <;> decide

/-- Reading a numeral from an accumulator multiplies the accumulator by the
corresponding power of ten. -/
theorem foldl_digStep (l : List Char) :
    ∀ a : Nat, l.foldl digStep a = a * 10 ^ l.length + digitsToNat l := by
  induction l with
  | nil => intro a; simp [digitsToNat]
  | cons c t ih =>
    intro a
    rw [List.foldl_cons, ih (digStep a c)]
    unfold digitsToNat
    rw [List.foldl_cons, ih (digStep 0 c)]
    simp only [digStep, List.length_cons, pow_succ, Nat.zero_mul, Nat.zero_add]
    unfold digitsToNat
    ring

/-- The digit writer produces, before the accumulator, a non-empty run of
digit characters whose numeral value is the number written. -/
theorem natToCharsAux_spec :
    ∀ (fuel n : Nat) (acc : List Char), n ≤ fuel → n ≠ 0 →
      ∃ ds : List Char, natToCharsAux fuel n acc = ds ++ acc ∧ ds ≠ [] ∧
        (∀ c ∈ ds, isDigitChar c = true) ∧
        (∀ a : Nat, ds.foldl digStep a = a * 10 ^ ds.length + n) := by
  intro fuel
  induction fuel with
  | zero => intro n acc h h0; omega
  | succ f ih =>
    intro n acc h h0
    rw [show natToCharsAux (f + 1) n acc =
      if n = 0 then acc else natToCharsAux f (n / 10) (digitChar (n % 10) :: acc) from rfl]
    rw [if_neg h0]
    have hm : n % 10 < 10 := Nat.mod_lt _ (by norm_num)
    by_cases hq : n / 10 = 0
    · have haux : natToCharsAux f (n / 10) (digitChar (n % 10) :: acc) =
          digitChar (n % 10) :: acc := by
        rw [hq]
        cases f with
        | zero => rfl
        | succ f2 => simp [natToCharsAux]
      rw [haux]
      refine ⟨[digitChar (n % 10)], rfl, by simp, ?_, ?_⟩
      · intro c hc
        simp only [List.mem_singleton] at hc
        subst hc
        exact isDigit_digitChar _ hm
      · intro a
        simp only [List.foldl_cons, List.foldl_nil, digStep, List.length_singleton,
          pow_one, charDigit_digitChar _ hm]
        omega
    · have h1 : n / 10 ≤ f := by
        have : n / 10 < n := Nat.div_lt_self (by omega) (by norm_num)
        omega
      obtain ⟨ds, hds, hne, hdig, hval⟩ := ih (n / 10) (digitChar (n % 10) :: acc) h1 hq
      refine ⟨ds ++ [digitChar (n % 10)], ?_, by simp, ?_, ?_⟩
      · rw [hds, List.append_assoc, List.singleton_append]
      · intro c hc
        rcases List.mem_append.mp hc with hin | hin
        · exact hdig c hin
        · simp only [List.mem_singleton] at hin
          subst hin
          exact isDigit_digitChar _ hm
      · intro a
        rw [List.foldl_append, hval a]
        simp only [List.foldl_cons, List.foldl_nil, digStep,
          charDigit_digitChar _ hm, List.length_append, List.length_singleton, pow_succ]
        have hdm := Nat.div_add_mod n 10
        ring_nf
        omega

/-- The numeral of a number is non-empty, consists of digit characters, and
reads back to the number. -/
theorem natToChars_spec (n : Nat) :
    natToChars n ≠ [] ∧ (∀ c ∈ natToChars n, isDigitChar c = true) ∧
      digitsToNat (natToChars n) = n := by
  by_cases h : n = 0
  · subst h
    exact ⟨by decide, by decide, by decide⟩
  · unfold natToChars
    rw [if_neg h]
    obtain ⟨ds, hds, hne, hdig, hval⟩ := natToCharsAux_spec n n [] le_rfl h
    rw [hds, List.append_nil]
    refine ⟨hne, hdig, ?_⟩
    unfold digitsToNat
    rw [hval 0]
    simp

/-- A greedy predicate run over an append whose left part satisfies the
predicate everywhere and whose right part does not start with it splits
exactly at the append point. -/
theorem takeWhile_append_all (p : Char → Bool) (l r : List Char)
    (hl : ∀ c ∈ l, p c = true) (hr : headNot p r) :
    (l ++ r).takeWhile p = l ∧ (l ++ r).dropWhile p = r := by
  induction l with
  | nil =>
    simp only [List.nil_append]
    cases r with
    | nil => simp
    | cons c t =>
      have hc : p c = false := hr
      simp [List.takeWhile_cons, List.dropWhile_cons, hc]
  | cons c t ih =>
    have hc : p c = true := hl c (List.mem_cons_self _ _)
    have ht : ∀ x ∈ t, p x = true := fun x hx => hl x (List.mem_cons_of_mem _ hx)
    obtain ⟨h1, h2⟩ := ih ht
    simp [List.takeWhile_cons, List.dropWhile_cons, hc, h1, h2]

/-- Reading back a written numeral followed by a non-digit remainder. -/
theorem parseNatChars_enc (n : Nat) (rest : List Char) (h : headNot isDigitChar rest) :
    parseNatChars (natToChars n ++ rest) = some (n, rest) := by
  obtain ⟨hne, hdig, hval⟩ := natToChars_spec n
  obtain ⟨ht, hd⟩ := takeWhile_append_all isDigitChar (natToChars n) rest hdig h
  obtain ⟨c, t, hct⟩ := List.exists_cons_of_ne_nil hne
  unfold parseNatChars
  rw [ht, hd, hct]
  show some (digitsToNat (c :: t), rest) = some (n, rest)
  rw [← hct, hval]

/-- Reading back an escaped string body up to its closing quote. -/
theorem parseStrBody_enc (s rest : List Char) :
    parseStrBody (escBody s ++ '"' :: rest) = some (s, rest) := by
  unfold parseStrBody
  induction s with
  | nil => simp [escBody, parseStrAux]
  | cons c t ih =>
    show parseStrAux false ((escapeChar c ++ escBody t) ++ '"' :: rest) = _
    rw [List.append_assoc]
    by_cases h1 : c = '"'
    · subst h1; simp [escapeChar, parseStrAux, unescapeChar, ih]
    · by_cases h2 : c = '\\'
      · subst h2; simp [escapeChar, parseStrAux, unescapeChar, ih]
      · by_cases h3 : c = '\n'
        · subst h3; simp [escapeChar, parseStrAux, unescapeChar, ih]
        · by_cases h4 : c = '\t'
          · subst h4; simp [escapeChar, parseStrAux, unescapeChar, ih]
          · by_cases h5 : c = '\r'
            · subst h5; simp [escapeChar, parseStrAux, unescapeChar, ih]
            · simp [escapeChar, h1, h2, h3, h4, h5, parseStrAux, ih]

/-- A digit character is none of the characters that select the other
scalar branches. -/
theorem digit_not_special (c : Char) (h : isDigitChar c = true) :
    c ≠ '"' ∧ c ≠ 't' ∧ c ≠ 'f' ∧ c ≠ 'n' ∧ c ≠ '-' := by
  refine ⟨?_, ?_, ?_, ?_, ?_⟩ <;> intro he <;> subst he <;> exact absurd h (by decide)

/-- Reading back a written scalar followed by a non-digit remainder. -/
theorem parseCell_enc (c : Cell) (rest : List Char) (h : headNot isDigitChar rest) :
    parseCell (encodeCell c ++ rest) = some (c, rest) := by
  cases c with
  | cStr s =>
    show parseCell (( '"' :: (escBody s ++ [ '"' ])) ++ rest) = _
    rw [List.cons_append, List.append_assoc, List.singleton_append]
    simp [parseCell, parseStrBody_enc]
  | cInt k =>
    cases k with
    | ofNat n =>
      obtain ⟨hne, hdig, hval⟩ := natToChars_spec n
      obtain ⟨d, ds, hds⟩ := List.exists_cons_of_ne_nil hne
      have hd : isDigitChar d = true := hdig d (by rw [hds]; exact List.mem_cons_self _ _)
      obtain ⟨n1, n2, n3, n4, n5⟩ := digit_not_special d hd
      show parseCell (natToChars n ++ rest) = _
      rw [hds, List.cons_append]
      simp only [parseCell]
      rw [if_neg n1, if_neg n2, if_neg n3, if_neg n4, if_neg n5]
      rw [← List.cons_append, ← hds, parseNatChars_enc n rest h]
      simp
    | negSucc m =>
      show parseCell (( '-' :: natToChars (m + 1)) ++ rest) = _
      rw [List.cons_append]
      simp [parseCell, parseNatChars_enc (m + 1) rest h, Int.negSucc_eq]
  | cBool b =>
    cases b with
    | true =>
      show parseCell ( 't' :: (( "rue" ).data ++ rest)) = _
      have hdrop := List.drop_left ( "rue" ).data rest
      simp only [show (( "rue" ).data).length = 3 from rfl] at hdrop
      simp [parseCell, isPre, hdrop]
    | false =>
      show parseCell ( 'f' :: (( "alse" ).data ++ rest)) = _
      have hdrop := List.drop_left ( "alse" ).data rest
      simp only [show (( "alse" ).data).length = 4 from rfl] at hdrop
      simp [parseCell, isPre, hdrop]
  | cNull =>
    show parseCell ( 'n' :: (( "ull" ).data ++ rest)) = _
    have hdrop := List.drop_left ( "ull" ).data rest
    simp only [show (( "ull" ).data).length = 3 from rfl] at hdrop
    simp [parseCell, isPre, hdrop]

/-- A cons list whose head fails the predicate satisfies headNot. -/
theorem headNot_cons {p : Char → Bool} {c : Char} (h : p c = false) (w : List Char) :
    headNot p (c :: w) := h

/-- Reading back the written pairs of a non-empty record object. -/
theorem parseRowLoop_enc :
    ∀ (r : Row) (rest : List Char) (fuel : Nat), r ≠ [] → r.length ≤ fuel →
      parseRowLoop fuel (encodeRowAux r ++ rest) = some (r, rest) := by
  intro r
  induction r with
  | nil => intro rest fuel hne _; exact absurd rfl hne
  | cons p tl ih =>
    intro rest fuel _ hf
    obtain ⟨k, c⟩ := p
    cases fuel with
    | zero => simp at hf
    | succ f =>
      cases tl with
      | nil =>
        have hs : encodeRowAux [(k, c)] ++ rest =
            '"' :: (escBody k ++ '"' :: (':' :: (encodeCell c ++ '}' :: rest))) := by
          simp [encodeRowAux, encodeStr, List.append_assoc]
        rw [hs]
        simp only [parseRowLoop]
        rw [parseStrBody_enc]
        simp [parseCell_enc c ( '}' :: rest) (headNot_cons (by decide) rest)]
      | cons q tl2 =>
        have hs : encodeRowAux ((k, c) :: q :: tl2) ++ rest =
            '"' :: (escBody k ++ '"' ::
              (':' :: (encodeCell c ++ ',' :: (encodeRowAux (q :: tl2) ++ rest)))) := by
          simp [encodeRowAux, encodeStr, List.append_assoc]
        rw [hs]
        simp only [parseRowLoop]
        rw [parseStrBody_enc]
        have hlen : (q :: tl2).length ≤ f := by
          simp only [List.length_cons] at hf ⊢
          omega
        simp [parseCell_enc c (',' :: (encodeRowAux (q :: tl2) ++ rest))
            (headNot_cons (by decide) (encodeRowAux (q :: tl2) ++ rest)),
          ih rest f (by simp) hlen]

/-- Reading back one written record object. -/
theorem parseRow_enc (r : Row) (rest : List Char) (fuel : Nat) (hf : r.length ≤ fuel) :
    parseRow fuel (encodeRow r ++ rest) = some (r, rest) := by
  cases r with
  | nil => rfl
  | cons p tl =>
    obtain ⟨k, c⟩ := p
    rw [show parseRow fuel (encodeRow ((k, c) :: tl) ++ rest) =
      parseRowLoop fuel (encodeRowAux ((k, c) :: tl) ++ rest) from rfl]
    exact parseRowLoop_enc ((k, c) :: tl) rest fuel (by simp) hf

/-- The pair count of a row is at most the length of its encoding. -/
theorem encodeRowAux_len (r : Row) : r.length ≤ (encodeRowAux r).length := by
  induction r with
  | nil => simp [encodeRowAux]
  | cons p tl ih =>
    obtain ⟨k, c⟩ := p
    cases tl with
    | nil => simp [encodeRowAux, encodeStr]
    | cons q tl2 =>
      simp only [encodeRowAux, List.length_cons, List.length_append, encodeStr] at *
      omega

/-- The fuel a table body needs: one unit per record plus its pair count. -/
def cost : List Row → Nat
  | [] => 0
  | r :: tl => r.length + 1 + cost tl

/-- The fuel bound of a non-empty table body is covered by the length of
its encoding. -/
theorem cost_le_tableBody : ∀ t : List Row, t ≠ [] → cost t ≤ (tableBody t).length := by
  intro t
  induction t with
  | nil => intro hne; exact absurd rfl hne
  | cons r tl ih =>
    intro _
    cases tl with
    | nil =>
      have h1 := encodeRowAux_len r
      simp only [cost, tableBody, encodeRow, List.length_append, List.length_cons]
      simp [cost]
      omega
    | cons q tl2 =>
      have h1 := encodeRowAux_len r
      have h2 := ih (by simp)
      simp only [cost, tableBody, encodeRow, List.length_append, List.length_cons] at h2 ⊢
      omega

/-- Reading back the written records of a non-empty array body. -/
theorem parseTableLoop_enc :
    ∀ (t : List Row) (rest : List Char) (fuel : Nat), t ≠ [] → cost t ≤ fuel →
      parseTableLoop fuel (tableBody t ++ rest) = some (t, rest) := by
  intro t
  induction t with
  | nil => intro rest fuel hne _; exact absurd rfl hne
  | cons r tl ih =>
    intro rest fuel _ hf
    cases fuel with
    | zero => simp [cost] at hf
    | succ f =>
      cases tl with
      | nil =>
        have hs : tableBody [r] ++ rest = encodeRow r ++ ( ']' :: rest) := by
          simp [tableBody, List.append_assoc]
        rw [hs]
        simp only [parseTableLoop]
        rw [parseRow_enc r ( ']' :: rest) f (by simp [cost] at hf; omega)]
        simp
      | cons q tl2 =>
        have hs : tableBody (r :: q :: tl2) ++ rest =
            encodeRow r ++ (',' :: (tableBody (q :: tl2) ++ rest)) := by
          simp [tableBody, List.append_assoc]
        rw [hs]
        simp only [parseTableLoop]
        rw [parseRow_enc r (',' :: (tableBody (q :: tl2) ++ rest)) f
          (by simp [cost] at hf; omega)]
        have hc : cost (q :: tl2) ≤ f := by
          simp [cost] at hf ⊢
          omega
        simp [ih rest f (by simp) hc]

/-- Round trip of the records-oriented JSON document: reading a written
table back yields the table. -/
theorem parseTable_encodeTable (t : List Row) : parseTable (encodeTable t) = some t := by
  cases t with
  | nil => rfl
  | cons r tl =>
    have hcost : cost (r :: tl) ≤ (encodeTable (r :: tl)).length + 1 := by
      have h1 := cost_le_tableBody (r :: tl) (by simp)
      simp only [encodeTable, List.length_cons]
      omega
    have hloop := parseTableLoop_enc (r :: tl) [] ((encodeTable (r :: tl)).length + 1)
      (by simp) hcost
    rw [List.append_nil] at hloop
    rw [show parseTable (encodeTable (r :: tl)) =
      (match parseTableLoop ((encodeTable (r :: tl)).length + 1) (tableBody (r :: tl)) with
       | some (u, []) => some u
       | _ => none) from rfl]
    rw [hloop]

/-- C9: the large path writes the whole preprocessed table through
save_json and reads back a table whose first 10 rows equal, in order, the
first 10 rows of the written table, and the preview that get_head embeds in
the prompt reads back to exactly those same first 10 rows. -/
theorem save_json_get_head_roundtrip (t : List Row) :
    (parseTable (save_json_content t)).map (fun u => u.take 10) = some (t.take 10) ∧
    parseTable (get_head t 10) = some (t.take 10) := by
  constructor
  · unfold save_json_content
    rw [parseTable_encodeTable]
    rfl
  · unfold get_head
    rw [parseTable_encodeTable]
